import Mathlib

/-!
Shallow embedding of `src/llmcompressor/utils/pytorch/module.py`:
name/pattern-based lookup and substitution utilities over a tree-structured
neural-network model.  A PyTorch `Module` is modelled as a finite tree whose
nodes carry a runtime class name, the results of the `isinstance` tests the
source performs, a list of directly-owned named parameters, and an ordered
list of named children.  Parameters are modelled as opaque identifiers (Nat).
Python's `re.match(pattern, name)` (match at position 0, unanchored at the
end) is an external-library call; it is abstracted as an oracle argument
`rm : String → String → Bool` threaded through the definitions.
-/

namespace LC

/-- Static information of one tree node: its runtime class simple name,
the results of the `isinstance` checks performed by the source
(`Linear`, `_ConvNd`, QAT variants, `TransformerConv1D`, `InternalModule`),
and its directly-owned named parameters. -/
structure ModInfo where
  className : String
  isLinear : Bool
  isConvNd : Bool
  isQATLinear : Bool
  isQATConv2d : Bool
  isQATConv3d : Bool
  isTransformerConv1D : Bool
  isInternalModule : Bool
  ownParams : List (String × Nat)
deriving DecidableEq, Repr

mutual

/-- A module tree: node information plus ordered named children
(the `_modules` dict of a PyTorch module).  The children are a separate
inductive (an ordered association list) so that all recursions over the
tree are plainly structural. -/
inductive Module where
  | mk (info : ModInfo) (children : Children)

/-- Ordered named children of a module node. -/
inductive Children where
  | nil
  | cons (name : String) (child : Module) (rest : Children)

end

/-- Build children from a list of named modules (for concrete trees). -/
def childrenOf : List (String × Module) → Children
  | [] => .nil
  | (n, c) :: rest => .cons n c (childrenOf rest)

/-- The ordered named children of a node. -/
def Module.children : Module → Children
  | .mk _ cs => cs

/-- The static node information. -/
def Module.info : Module → ModInfo
  | .mk i _ => i

mutual

/-- Preorder walk of the tree with segment-list paths, root first
(`Module.named_modules` in PyTorch, the dotted name being the
"."-join of the segment path). -/
def namedModulesSeg : Module → List (List String × Module)
  | .mk info cs => ([], .mk info cs) :: namedModulesChildren cs

/-- Preorder walk of a list of named children, left to right. -/
def namedModulesChildren : Children → List (List String × Module)
  | .nil => []
  | .cons n c rest =>
    (namedModulesSeg c).map (fun e => (n :: e.1, e.2)) ++ namedModulesChildren rest

end

mutual

/-- Recursive named parameters of a node (`Module.named_parameters`):
directly-owned parameters first, then descendants' parameters with the
child name and a "." prepended. -/
def named_parameters : Module → List (String × Nat)
  | .mk info cs => info.ownParams ++ namedParametersChildren cs

/-- Parameters of a list of named children, each child name prepended. -/
def namedParametersChildren : Children → List (String × Nat)
  | .nil => []
  | .cons n c rest =>
    (named_parameters c).map (fun pp => (n ++ "." ++ pp.1, pp.2)) ++
      namedParametersChildren rest

end

/-- A walked node: its true segment path, its dotted name and the node. -/
structure NamedMod where
  path : List String
  name : String
  mod : Module

/-- All nodes of the tree with dotted names, preorder, root (name "") first. -/
def allNodes (m : Module) : List NamedMod :=
  (namedModulesSeg m).map (fun e => ⟨e.1, String.intercalate "." e.1, e.2⟩)

/-- The reserved sentinel for "all terminal layers". -/
def ALL_TARGET : String := "__ALL__"

/-- The reserved sentinel for "all prunable layers". -/
def ALL_PRUNABLE_TARGET : String := "__ALL_PRUNABLE__"

/-- The reserved sentinel for "all quantizable layers". -/
def ALL_QUANTIZABLE_TARGET : String := "__ALL_QUANTIZABLE__"

/-- A target specification: `Union[str, List[str]]` in the source. -/
inductive TargetSpec where
  | str (s : String)
  | list (l : List String)
deriving DecidableEq, Repr

/-- Normalization of a target specification into a list
(`if isinstance(targets, str): targets = [targets]`). -/
def targetsList : TargetSpec → List String
  | .str s => [s]
  | .list l => l

/-- Host-environment capabilities: which optional imports succeeded.
`qatAvailable` covers the first `try` block of the source (QAT `Linear`
and `Conv2d`, `QuantWrapper`); the other two cover their own blocks. -/
structure Env where
  qatAvailable : Bool
  qatConv3dAvailable : Bool
  transformerConv1DAvailable : Bool

/-- The errors the source can raise on the modelled paths. -/
inductive PyErr where
  | notFound (missed : List String)
  | importError
  | valueError (n : Nat)
  | attributeError
  | keyError
deriving DecidableEq, Repr

/-- A resolved value: `Union[Module, Parameter]`. -/
inductive Entity where
  | layer (m : Module)
  | par (p : Nat)

/-- One entry of the resolver's ordered result dict: the dict key (the
normalized dotted name), the true segment path of the recorded node in the
tree (bookkeeping for the object reference Python would hold), and the
recorded value. -/
structure ResolvedEntry where
  key : String
  path : List String
  value : Entity

/-- Python `s.split(".")`, implemented structurally over the character
list so that concrete terms reduce definitionally (the library
`String.splitOn` is defined by well-founded recursion and does not). -/
def splitDotAux : List Char → List Char → List String
  | [], acc => [⟨acc.reverse⟩]
  | c :: rest, acc =>
    if c = '.' then ⟨acc.reverse⟩ :: splitDotAux rest [] else splitDotAux rest (c :: acc)

/-- Python `target.split(".")`. -/
def splitDot (s : String) : List String := splitDotAux s.data []

/-- Python `"." in s`. -/
def containsDot (s : String) : Bool := s.data.any (fun c => c = '.')

/-- Name of the FSDP wrapper segment inserted by the sharding framework. -/
def FSDP_WRAPPER_NAME : String := "_fsdp_wrapped_module"

/-- Modelled from the spec: `fix_fsdp_module_name` from
`llmcompressor.utils.fsdp.context` (not under src/) — "path normalization
undoes any temporary wrapping-induced name-prefix inserted by an external
sharding context — strip that wrapper segment before matching". -/
def fix_fsdp_module_name (name : String) : String :=
  String.intercalate "." ((splitDot name).filter (fun s => s ≠ FSDP_WRAPPER_NAME))

/-- Modelled from the spec: `maybe_get_wrapped` from
`llmcompressor.utils.fsdp.helpers` (not under src/) — returns the module
wrapped by the external sharding context; the identity on an unwrapped
model tree, which is what this embedding represents. -/
def maybe_get_wrapped (m : Module) : Module := m

/-- The loop of `match_targets`: first target matching `name` wins; a
target starting with `"re:"` consults the regex oracle `rm` on its
remainder, any other target must equal `name` exactly. -/
def matchTargetsGo (rm : String → String → Bool) (name : String) :
    List String → Int → Bool × Int
  | [], _ => (false, -1)
  | t :: rest, i =>
    if t.take 3 = "re:" then
      if rm (t.drop 3) name then (true, i) else matchTargetsGo rm name rest (i + 1)
    else if name = t then (true, i)
    else matchTargetsGo rm name rest (i + 1)

/-- Source `match_targets(name, targets)`: returns whether some target
matches and the index of the first matching target, `(False, -1)` when
none does.  `rm` is the oracle for Python's `re.match(pattern, name)`
(true iff the pattern matches at position 0 of `name`, unanchored at the
end). -/
def match_targets (rm : String → String → Bool) (name : String)
    (targets : TargetSpec) : Bool × Int :=
  matchTargetsGo rm name (targetsList targets) 0

/-- One-target matching predicate (specification form of the loop body of
`match_targets`): a `"re:"`-prefixed target matches iff its remainder,
read as a regex, matches at position 0 of `name` (the oracle `rm`); any
other target matches iff it equals `name` exactly. -/
def target_matches (rm : String → String → Bool) (name t : String) : Bool :=
  if t.take 3 = "re:" then rm (t.drop 3) name else decide (name = t)

/-- The loop of `match_class`: literal comparison of the class simple name
against each target, first hit wins. -/
def matchClassGo (cn : String) : List String → Int → Bool × Int
  | [], _ => (false, -1)
  | t :: rest, i => if cn = t then (true, i) else matchClassGo cn rest (i + 1)

/-- Source `match_class(layer, targets)`: literal-only comparison of
`layer.__class__.__name__` with each target; no regex semantics (the
definition consults no regex oracle at all). -/
def match_class (layer : Module) (targets : TargetSpec) : Bool × Int :=
  matchClassGo layer.info.className (targetsList targets) 0

/-- Ordered-dict assignment `d[k] = v`: overwrite in place if the key is
present, append otherwise. -/
def insertAssoc {α : Type} (l : List (String × α)) (k : String) (v : α) :
    List (String × α) :=
  if l.any (fun x => x.1 = k) then l.map (fun x => if x.1 = k then (k, v) else x)
  else l ++ [(k, v)]

/-- Ordered-dict assignment for the resolver's result entries. -/
def insertResolved (l : List ResolvedEntry) (e : ResolvedEntry) :
    List ResolvedEntry :=
  if l.any (fun x => x.key = e.key) then l.map (fun x => if x.key = e.key then e else x)
  else l ++ [e]

/-- Mark a target index found (`targets_found[match_index] = True`). -/
def setFound (fs : List Bool) (i : Int) : List Bool := fs.set i.toNat true

/-- Source `get_default_params(layers)`: for each layer, its first
recursively-named parameter literally named `"weight"`, if any; layers
without one are skipped. -/
def get_default_params (layers : List (String × Module)) : List (String × Nat) :=
  layers.foldl
    (fun acc nl =>
      match (named_parameters nl.2).find? (fun pp => pp.1 = "weight") with
      | some pp => insertAssoc acc nl.1 pp.2
      | none => acc)
    []

/-- The directly-owned parameter of a node literally named `"weight"`. -/
def ownWeight (m : Module) : Option Nat :=
  (m.info.ownParams.find? (fun pp => pp.1 = "weight")).map (fun pp => pp.2)

/-- Resolver state: the per-target-index found flags and the ordered
result dict. -/
structure ResolveState where
  found : List Bool
  resolved : List ResolvedEntry

/-- Module-level matching step of the resolver loop body: a name match records
the node when `params` is false; otherwise a class match records the node
(the layer itself, never a parameter). -/
def visitModule (rm : String → String → Bool) (targets : List String)
    (params : Bool) (path : List String) (name : String) (layer : Module)
    (st : ResolveState) : ResolveState :=
  let r1 := match_targets rm name (.list targets)
  if r1.1 && !params then
    ⟨setFound st.found r1.2, insertResolved st.resolved ⟨name, path, .layer layer⟩⟩
  else
    let r2 := match_class layer (.list targets)
    if r2.1 then
      ⟨setFound st.found r2.2, insertResolved st.resolved ⟨name, path, .layer layer⟩⟩
    else st

/-- Parameter-level matching of the resolver loop body: for each directly
owned parameter (recursively named ones, containing a dot, are skipped),
the compound name `"{name}.{param}"` is matched; a hit records, under the
node's own name, the layer (`params=False`) or the parameter
(`params=True`). -/
def visitParams (rm : String → String → Bool) (targets : List String)
    (params : Bool) (path : List String) (name : String) (layer : Module)
    (st : ResolveState) : ResolveState :=
  (named_parameters layer).foldl
    (fun st pp =>
      if containsDot pp.1 then st
      else
        let r := match_targets rm (name ++ "." ++ pp.1) (.list targets)
        if r.1 then
          ⟨setFound st.found r.2,
           insertResolved st.resolved
             ⟨name, path, if !params then .layer layer else .par pp.2⟩⟩
        else st)
    st

/-- One iteration of the resolver's walk: normalize the dotted name, then
module-level matching followed by parameter-level matching. -/
def visitNode (rm : String → String → Bool) (targets : List String)
    (params : Bool) (st : ResolveState) (pm : List String × Module) :
    ResolveState :=
  let name := fix_fsdp_module_name (String.intercalate "." pm.1)
  visitParams rm targets params pm.1 name pm.2
    (visitModule rm targets params pm.1 name pm.2 st)

/-- The non-sentinel path of `match_layers_params`: one preorder walk
applying `visitNode` to every node, then the missed-target check. -/
def resolveTargets (rm : String → String → Bool) (targets : List String)
    (m : Module) (params : Bool) : Except PyErr (List ResolvedEntry) :=
  let final :=
    (namedModulesSeg m).foldl (visitNode rm targets params)
      ⟨List.replicate targets.length false, []⟩
  let missed :=
    (final.found.zip targets).filterMap (fun ft => if ft.1 then none else some ft.2)
  if missed.length > 0 then .error (.notFound missed) else .ok final.resolved

/-- Source `get_terminal_layers(module)`: the nodes whose own walk has at
most one element, i.e. the leaves. -/
def get_terminal_layers (m : Module) : List NamedMod :=
  (allNodes m).filter (fun e => !((namedModulesSeg e.mod).length > 1))

/-- Source `get_prunable_layers(module)`: nodes of a linear/convolutional
kind, the optional kinds counting only when their import succeeded. -/
def get_prunable_layers (env : Env) (m : Module) : List NamedMod :=
  (allNodes m).filter
    (fun e =>
      e.mod.info.isLinear || e.mod.info.isConvNd ||
        (env.qatAvailable && e.mod.info.isQATLinear) ||
        (env.qatAvailable && e.mod.info.isQATConv2d) ||
        (env.qatConv3dAvailable && e.mod.info.isQATConv3d) ||
        (env.transformerConv1DAvailable && e.mod.info.isTransformerConv1D))

/-- Source `get_quantizable_layers(module)`: raises `ImportError` when the
QAT import failed (`QATLinear is None`), otherwise the nodes that are
dense-linear or N-dimensional-convolutional. -/
def get_quantizable_layers (env : Env) (m : Module) :
    Except PyErr (List NamedMod) :=
  if !env.qatAvailable then .error .importError
  else .ok ((allNodes m).filter (fun e => e.mod.info.isLinear || e.mod.info.isConvNd))

/-- Projection of a walked-layer list into result entries (a name→layer
dict). -/
def layerEntries (l : List NamedMod) : List ResolvedEntry :=
  l.map (fun e => ⟨e.name, e.path, .layer e.mod⟩)

/-- Projection of a name→parameter dict into result entries. -/
def paramEntries (l : List (String × Nat)) : List ResolvedEntry :=
  l.map (fun np => ⟨np.1, [], .par np.2⟩)

/-- Source `match_layers_params(targets, module, params)`: the three
reserved sentinel strings short-circuit to the corresponding role
classifier (projected to default parameters when `params` is true); any
other specification goes through the normal walk `resolveTargets`. -/
def match_layers_params (rm : String → String → Bool) (env : Env)
    (targets : TargetSpec) (m : Module) (params : Bool) :
    Except PyErr (List ResolvedEntry) :=
  if targets = .str ALL_TARGET then
    let values := get_terminal_layers m
    .ok (if !params then layerEntries values
         else paramEntries (get_default_params (values.map (fun e => (e.name, e.mod)))))
  else if targets = .str ALL_PRUNABLE_TARGET then
    let values := get_prunable_layers env m
    .ok (if !params then layerEntries values
         else paramEntries (get_default_params (values.map (fun e => (e.name, e.mod)))))
  else if targets = .str ALL_QUANTIZABLE_TARGET then
    match get_quantizable_layers env m with
    | .error e => .error e
    | .ok values =>
      .ok (if !params then layerEntries values
           else paramEntries (get_default_params (values.map (fun e => (e.name, e.mod)))))
  else resolveTargets rm (targetsList targets) m params

/-- Whether a resolved value is an llm-compressor internal module
(`isinstance(layer, InternalModule)`). -/
def entityIsInternal : Entity → Bool
  | .layer m => m.info.isInternalModule
  | .par _ => false

/-- Source `get_layers(targets, module, exclude_internal_modules)`. -/
def get_layers (rm : String → String → Bool) (env : Env) (targets : TargetSpec)
    (m : Module) (excludeInternal : Bool) : Except PyErr (List ResolvedEntry) :=
  match match_layers_params rm env targets m false with
  | .error e => .error e
  | .ok ld =>
    .ok (if excludeInternal then ld.filter (fun e => !(entityIsInternal e.value)) else ld)

/-- Source `get_layer(target, module)`: exactly one match required, the
first (only) entry returned. -/
def get_layer (rm : String → String → Bool) (env : Env) (target : String)
    (m : Module) : Except PyErr ResolvedEntry :=
  match get_layers rm env (.str target) m false with
  | .error e => .error e
  | .ok layers =>
    match layers with
    | [e] => .ok e
    | l => .error (.valueError l.length)

/-- Source `get_params(targets, module)`. -/
def get_params (rm : String → String → Bool) (env : Env) (targets : TargetSpec)
    (m : Module) : Except PyErr (List ResolvedEntry) :=
  match_layers_params rm env targets m true

/-- Source `get_param(target, module)`: exactly one match required. -/
def get_param (rm : String → String → Bool) (env : Env) (target : String)
    (m : Module) : Except PyErr ResolvedEntry :=
  match get_params rm env (.str target) m with
  | .error e => .error e
  | .ok params =>
    match params with
    | [e] => .ok e
    | l => .error (.valueError l.length)

/-- Lookup of the first child registered under a name. -/
def findChild (s : String) : Children → Except PyErr Module
  | .nil => .error .attributeError
  | .cons n c rest => if n = s then .ok c else findChild s rest

/-- Python `getattr(parent_layer, name)` restricted to child modules:
the first child registered under `name`, `AttributeError` otherwise. -/
def getattrChild (m : Module) (s : String) : Except PyErr Module :=
  findChild s m.children

/-- Python `setattr(parent_layer, name, layer)` on a module: replace the
first child registered under `name` in place, or register a new child at
the end. -/
def setChildren (cs : Children) (s : String) (c : Module) : Children :=
  match cs with
  | .nil => .cons s c .nil
  | .cons n c0 rest =>
    if n = s then .cons n c rest else .cons n c0 (setChildren rest s c)

/-- Python `setattr` at the module level. -/
def setattrChild (m : Module) (s : String) (c : Module) : Module :=
  .mk m.info (setChildren m.children s c)

/-- The subtree of `m` at a segment path, following at each level the
first child with the given name. -/
def subtreeAt : Module → List String → Option Module
  | m, [] => some m
  | m, s :: rest =>
    match getattrChild m s with
    | .ok c => subtreeAt c rest
    | .error _ => none

/-- Replace the first child named `s` by the image of `f` (helper for the
functional in-place update that models Python's aliasing mutation). -/
def updateChildren (cs : Children) (s : String) (f : Module → Module) : Children :=
  match cs with
  | .nil => .nil
  | .cons n c rest =>
    if n = s then .cons n (f c) rest else .cons n c (updateChildren rest s f)

/-- Functional update of the node at a segment path (identity when the
path does not exist).  This models the effect, on the whole tree, of
Python mutating the node object aliased at that path. -/
def updateAt : Module → List String → (Module → Module) → Module
  | m, [], f => f m
  | m, s :: rest, f => .mk m.info (updateChildren m.children s (fun c => updateAt c rest f))

/-- Parent resolution step of `set_layer`: the root (through the external
sharding unwrapper, modelled from the spec as the identity) when the
target has no dot, otherwise the unique `get_layer` match of the dotted
parent target. -/
def set_layer_parent (rm : String → String → Bool) (env : Env)
    (target : String) (m : Module) : Except PyErr ResolvedEntry :=
  let segs := splitDot target
  let parentTarget := String.intercalate "." segs.dropLast
  if parentTarget = "" then .ok ⟨"", [], .layer (maybe_get_wrapped m)⟩
  else get_layer rm env parentTarget m

/-- Source `set_layer(target, layer, module)`: locate the parent, detach
the old child under the final path segment, attach the replacement there,
and return the displaced child together with the resulting tree (the
source mutates in place under the external sharded-parameter context,
modelled from the spec as having no effect on the tree itself). -/
def set_layer (rm : String → String → Bool) (env : Env) (target : String)
    (layer : Module) (m : Module) : Except PyErr (Module × Module) :=
  let segs := splitDot target
  let lastSeg := segs.getLastD ""
  match set_layer_parent rm env target m with
  | .error e => .error e
  | .ok entry =>
    match entry.value with
    | .par _ => .error .attributeError
    | .layer parentLayer =>
      match getattrChild parentLayer lastSeg with
      | .error e => .error e
      | .ok oldLayer =>
        .ok (oldLayer, updateAt m entry.path (fun pl => setattrChild pl lastSeg layer))

/-- Modelled from the spec: `ModelParameterizedLayer` from
`llmcompressor.core` (not under src/) — "a composite record
\x7blayer_name, layer reference, param_name, param reference\x7d pairing a
layer with a chosen parameter". -/
structure ModelParameterizedLayer where
  layer_name : String
  layer : Entity
  param_name : String
  param : Entity

/-- Source `get_layers_params(targets, module)`: resolve parameters and
layers for the same targets, then pair them per name; `layers[name]`
raises `KeyError` when a parameter key is missing from the layer dict. -/
def get_layers_params (rm : String → String → Bool) (env : Env)
    (targets : TargetSpec) (m : Module) :
    Except PyErr (List (String × ModelParameterizedLayer)) :=
  match get_params rm env targets m with
  | .error e => .error e
  | .ok params =>
    match get_layers rm env targets m false with
    | .error e => .error e
    | .ok layers =>
      params.foldl
        (fun acc pe =>
          match acc with
          | .error e => .error e
          | .ok lst =>
            match layers.find? (fun le => le.key = pe.key) with
            | none => .error .keyError
            | some le =>
              .ok (insertAssoc lst pe.key
                ⟨pe.key, le.value, pe.key, pe.value⟩))
        (.ok [])

/-- Length of the longest common extension of two character lists from
their heads. -/
def commonPrefixLen : List Char → List Char → Nat
  | a :: as, b :: bs => if a = b then commonPrefixLen as bs + 1 else 0
  | _, _ => 0

/-- Maximum of a list of naturals. -/
def maxList (l : List Nat) : Nat := l.foldr max 0

/-- Length of the longest contiguous common substring of two strings
(`difflib.SequenceMatcher(None, a, b).find_longest_match(...)`'s size for
the name-length strings at hand): the maximum over all pairs of suffixes
of the common-extension length at their heads. -/
def lcsLen (a b : String) : Nat :=
  maxList ((a.data.tails).map (fun sa => maxList ((b.data.tails).map
    (fun sb => commonPrefixLen sa sb))))

/-- The accumulator step of `get_matching_layer`: keep the running best;
a candidate replaces it only when its common-substring length with the
reference name is strictly greater. -/
def lcsStep (ref : String) (acc : Option ResolvedEntry × Nat)
    (e : ResolvedEntry) : Option ResolvedEntry × Nat :=
  let len := lcsLen e.key ref
  if len > acc.2 then (some e, len) else acc

/-- Source `get_matching_layer(target, name_to_match, module)`: resolve
the target's candidates, then return the one whose name has the strictly
greatest longest-common-substring length with `name_to_match` (running
best initialized to zero, strict comparison, so ties keep the first
seen); `None` when no candidate improves on zero. -/
def get_matching_layer (rm : String → String → Bool) (env : Env)
    (target : String) (name_to_match : String) (m : Module) :
    Except PyErr (Option ResolvedEntry) :=
  match get_layers rm env (.str target) m false with
  | .error e => .error e
  | .ok cands => .ok (cands.foldl (lcsStep name_to_match) (none, 0)).1

/-- Convenience constructor: a leaf module with a class name and
directly-owned parameters. -/
def leafMod (cn : String) (ps : List (String × Nat)) : Module :=
  .mk ⟨cn, false, false, false, false, false, false, false, ps⟩ .nil

/-- Convenience constructor: an inner module with a class name and
children. -/
def nodeMod (cn : String) (cs : List (String × Module)) : Module :=
  .mk ⟨cn, false, false, false, false, false, false, false, []⟩ (childrenOf cs)

theorem matchTargetsGo_none (rm : String → String → Bool) (name : String) :
    ∀ (ts : List String) (i : Int),
      (∀ t ∈ ts, target_matches rm name t = false) →
      matchTargetsGo rm name ts i = (false, -1) := by
  intro ts
  induction ts with
  | nil => intro i _; rfl
  | cons t rest ih =>
    intro i h
    have ht := h t (List.mem_cons_self t rest)
    have hrest : ∀ x ∈ rest, target_matches rm name x = false :=
      fun x hx => h x (List.mem_cons_of_mem t hx)
    simp only [matchTargetsGo]
    by_cases hre : t.take 3 = "re:"
    · rw [target_matches, if_pos hre] at ht
      rw [if_pos hre, ht, if_neg Bool.false_ne_true]
      exact ih (i + 1) hrest
    · rw [target_matches, if_neg hre] at ht
      have ht2 : ¬(name = t) := by simpa using ht
      rw [if_neg hre, if_neg ht2]
      exact ih (i + 1) hrest

theorem matchTargetsGo_found (rm : String → String → Bool) (name : String) :
    ∀ (ts : List String) (k : Nat) (i : Int),
      k < ts.length →
      target_matches rm name (ts.getD k "") = true →
      (∀ j : Nat, j < k → target_matches rm name (ts.getD j "") = false) →
      matchTargetsGo rm name ts i = (true, i + (k : Int)) := by
  intro ts
  induction ts with
  | nil => intro k i hk; simp at hk
  | cons t rest ih =>
    intro k i hk hmatch hbefore
    cases k with
    | zero =>
      simp only [List.getD_cons_zero] at hmatch
      simp only [matchTargetsGo]
      by_cases hre : t.take 3 = "re:"
      · rw [target_matches, if_pos hre] at hmatch
        rw [if_pos hre, hmatch, if_pos rfl]
        norm_num
      · rw [target_matches, if_neg hre] at hmatch
        have h2 : name = t := by simpa using hmatch
        rw [if_neg hre, if_pos h2]
        norm_num
    | succ n =>
      have hhead := hbefore 0 (by omega)
      simp only [List.getD_cons_zero] at hhead
      have hrec :=
        ih n (i + 1) (by simpa using Nat.lt_of_succ_lt_succ hk)
          (by simpa using hmatch)
          (fun j hj => by simpa using hbefore (j + 1) (by omega))
      simp only [matchTargetsGo]
      by_cases hre : t.take 3 = "re:"
      · rw [target_matches, if_pos hre] at hhead
        rw [if_pos hre, hhead, if_neg Bool.false_ne_true, hrec]
        have : i + 1 + (n : Int) = i + ((n + 1 : Nat) : Int) := by push_cast; ring
        rw [this]
      · rw [target_matches, if_neg hre] at hhead
        have h2 : ¬(name = t) := by simpa using hhead
        rw [if_neg hre, if_neg h2, hrec]
        have : i + 1 + (n : Int) = i + ((n + 1 : Nat) : Int) := by push_cast; ring
        rw [this]

/-- C3: `match_targets` iterates the targets in order and returns
`(True, i)` for the smallest index `i` whose target matches — a
`"re:"`-prefixed target matching iff its remainder, read as a regex,
matches at position 0 of the name (the oracle `rm`, Python's `re.match`),
any other target matching iff it equals the name exactly — and returns
`(False, -1)` when no target matches; a single string target behaves as a
one-element list. -/
theorem match_targets_spec (rm : String → String → Bool) (name : String) :
    (∀ s, match_targets rm name (.str s) = match_targets rm name (.list [s])) ∧
    (∀ ts : List String,
      ((∀ t ∈ ts, target_matches rm name t = false) →
         match_targets rm name (.list ts) = (false, -1)) ∧
      (∀ k : Nat, k < ts.length →
         target_matches rm name (ts.getD k "") = true →
         (∀ j : Nat, j < k → target_matches rm name (ts.getD j "") = false) →
         match_targets rm name (.list ts) = (true, (k : Int)))) := by
  refine ⟨fun s => rfl, fun ts => ⟨fun h => matchTargetsGo_none rm name ts 0 h,
    fun k hk hm hb => ?_⟩⟩
  have := matchTargetsGo_found rm name ts k 0 hk hm hb
  simpa using this

theorem match_targets_spec_witness :
    target_matches (fun _ _ => false) "b" "b" = true ∧
    match_targets (fun _ _ => false) "b" (.list ["a", "b"]) = (true, 1) :=
  ⟨by decide,
    ((match_targets_spec (fun _ _ => false) "b").2 ["a", "b"]).2 1 (by decide)
      (by decide)
      (fun j hj => by
        have hj0 : j = 0 := by omega
        subst hj0
        decide)⟩

theorem matchClassGo_none (cn : String) :
    ∀ (ts : List String) (i : Int),
      (∀ t ∈ ts, cn ≠ t) → matchClassGo cn ts i = (false, -1) := by
  intro ts
  induction ts with
  | nil => intro i _; rfl
  | cons t rest ih =>
    intro i h
    have ht := h t (by simp)
    simp only [matchClassGo, ht, if_neg, not_false_iff]
    exact ih (i + 1) (fun x hx => h x (by simp [hx]))

theorem matchClassGo_found (cn : String) :
    ∀ (ts : List String) (k : Nat) (i : Int),
      k < ts.length → cn = ts.getD k "" →
      (∀ j : Nat, j < k → cn ≠ ts.getD j "") →
      matchClassGo cn ts i = (true, i + (k : Int)) := by
  intro ts
  induction ts with
  | nil => intro k i hk; simp at hk
  | cons t rest ih =>
    intro k i hk hmatch hbefore
    cases k with
    | zero =>
      simp only [List.getD_cons_zero] at hmatch
      simp [matchClassGo, hmatch]
    | succ n =>
      have hhead := hbefore 0 (by omega)
      simp only [List.getD_cons_zero] at hhead
      simp only [matchClassGo, hhead, if_neg, not_false_iff]
      have hrec :=
        ih n (i + 1) (by simpa using Nat.lt_of_succ_lt_succ hk)
          (by simpa using hmatch)
          (fun j hj => by simpa using hbefore (j + 1) (by omega))
      rw [hrec]
      congr 1
      push_cast
      ring

/-- C4: class matching (`match_class`) matches iff the layer's runtime
class simple name is literally equal to one of the targets (first such
index returned, `(False, -1)` otherwise); regex semantics are never
applied — in particular the target `"re:Linear"` matches exactly the
classes literally named `"re:Linear"`. -/
theorem match_class_spec (layer : Module) :
    (∀ s, match_class layer (.str s) = match_class layer (.list [s])) ∧
    (∀ ts : List String,
      ((∀ t ∈ ts, layer.info.className ≠ t) →
         match_class layer (.list ts) = (false, -1)) ∧
      (∀ k : Nat, k < ts.length → layer.info.className = ts.getD k "" →
         (∀ j : Nat, j < k → layer.info.className ≠ ts.getD j "") →
         match_class layer (.list ts) = (true, (k : Int)))) ∧
    ((match_class layer (.list ["re:Linear"])).1 = true ↔
       layer.info.className = "re:Linear") := by
  refine ⟨fun s => rfl,
    fun ts => ⟨fun h => matchClassGo_none layer.info.className ts 0 h,
      fun k hk hm hb => by
        simpa using matchClassGo_found layer.info.className ts k 0 hk hm hb⟩,
    ?_, ?_⟩
  · intro h
    by_contra hne
    have := matchClassGo_none layer.info.className ["re:Linear"] 0
      (by simpa using hne)
    simp only [match_class, targetsList] at h
    rw [this] at h
    simp at h
  · intro h
    have := matchClassGo_found layer.info.className ["re:Linear"] 0 0
      (by simp) (by simpa using h) (fun j hj => by omega)
    simp only [match_class, targetsList]
    rw [this]

theorem match_class_spec_witness :
    match_class (leafMod "Linear" []) (.list ["re:Linear"]) = (false, -1) ∧
    match_class (leafMod "re:Linear" []) (.list ["re:Linear"]) = (true, 0) :=
  ⟨((match_class_spec (leafMod "Linear" [])).2.1 ["re:Linear"]).1 (by decide),
    ((match_class_spec (leafMod "re:Linear" [])).2.1 ["re:Linear"]).2 0
      (by decide) (by decide) (fun j hj => by omega)⟩

/-- C2: in the resolver's per-node step, a node-level name match records
the node under its name and marks its target index found only when the
`params` flag is false; otherwise a class match records the node itself —
the layer, never a parameter — under its name and marks its index found,
even when `params` is true. -/
theorem visitModule_spec (rm : String → String → Bool) (targets : List String)
    (p : Bool) (path : List String) (name : String) (layer : Module)
    (st : ResolveState) :
    ((match_targets rm name (.list targets)).1 = true → p = false →
       visitModule rm targets p path name layer st =
         ⟨setFound st.found (match_targets rm name (.list targets)).2,
          insertResolved st.resolved ⟨name, path, .layer layer⟩⟩) ∧
    (((match_targets rm name (.list targets)).1 = false ∨ p = true) →
       visitModule rm targets p path name layer st =
         if (match_class layer (.list targets)).1 then
           ⟨setFound st.found (match_class layer (.list targets)).2,
            insertResolved st.resolved ⟨name, path, .layer layer⟩⟩
         else st) := by
  constructor
  · intro hm hp
    subst hp
    simp [visitModule, hm]
  · intro h
    rcases h with hm | hp
    · simp [visitModule, hm]
    · subst hp
      simp [visitModule]

theorem visitModule_spec_witness :
    visitModule (fun _ _ => false) ["a"] false [] "a" (leafMod "A" [])
        ⟨[false], []⟩ =
      ⟨setFound [false] (match_targets (fun _ _ => false) "a" (.list ["a"])).2,
       insertResolved [] ⟨"a", [], .layer (leafMod "A" [])⟩⟩ ∧
    visitModule (fun _ _ => false) ["A"] true [] "a" (leafMod "A" [])
        ⟨[false], []⟩ =
      (if (match_class (leafMod "A" []) (.list ["A"])).1 then
         ⟨setFound [false] (match_class (leafMod "A" []) (.list ["A"])).2,
          insertResolved [] ⟨"a", [], .layer (leafMod "A" [])⟩⟩
       else ⟨[false], []⟩) :=
  ⟨(visitModule_spec (fun _ _ => false) ["a"] false [] "a" (leafMod "A" [])
      ⟨[false], []⟩).1 (by decide) rfl,
   (visitModule_spec (fun _ _ => false) ["A"] true [] "a" (leafMod "A" [])
      ⟨[false], []⟩).2 (Or.inr rfl)⟩

/-- C8: when the host environment's QAT support is absent
(`QATLinear is None`), `get_quantizable_layers` raises the import error on
every module tree; when it is present, the call succeeds and returns
exactly the walked nodes whose runtime type is dense-linear or
N-dimensional-convolutional. -/
theorem get_quantizable_layers_spec (env : Env) :
    (∀ m : Module, env.qatAvailable = false →
       get_quantizable_layers env m = .error .importError) ∧
    (∀ (m : Module) (L : List NamedMod),
       get_quantizable_layers env m = .ok L →
       env.qatAvailable = true ∧
       ∀ e : NamedMod, e ∈ L ↔
         (e ∈ allNodes m ∧
           (e.mod.info.isLinear = true ∨ e.mod.info.isConvNd = true))) := by
  constructor
  · intro m h
    simp [get_quantizable_layers, h]
  · intro m L h
    cases hq : env.qatAvailable with
    | false => simp [get_quantizable_layers, hq] at h
    | true =>
      refine ⟨rfl, ?_⟩
      simp only [get_quantizable_layers, hq, Bool.not_true, Bool.false_eq_true,
        if_neg, not_false_iff, Except.ok.injEq] at h
      subst h
      intro e
      simp [List.mem_filter, Bool.or_eq_true]

theorem get_quantizable_layers_spec_witness :
    get_quantizable_layers ⟨false, false, false⟩ (leafMod "Linear" []) =
      .error .importError ∧
    (⟨true, false, false⟩ : Env).qatAvailable = true ∧
    ∀ e : NamedMod,
      e ∈ [(⟨["fc"], "fc",
              Module.mk ⟨"Linear", true, false, false, false, false, false, false, []⟩
                .nil⟩ : NamedMod)] ↔
        (e ∈ allNodes (nodeMod "Root"
            [("fc", Module.mk ⟨"Linear", true, false, false, false, false, false,
               false, []⟩ .nil)]) ∧
          (e.mod.info.isLinear = true ∨ e.mod.info.isConvNd = true)) :=
  ⟨(get_quantizable_layers_spec ⟨false, false, false⟩).1 (leafMod "Linear" []) rfl,
   (get_quantizable_layers_spec ⟨true, false, false⟩).2
     (nodeMod "Root"
       [("fc", Module.mk ⟨"Linear", true, false, false, false, false, false,
          false, []⟩ .nil)])
     [⟨["fc"], "fc",
        Module.mk ⟨"Linear", true, false, false, false, false, false, false, []⟩
          .nil⟩] rfl⟩

/-- Structural induction principle for `Children` alone (the mutual
recursor has several motives, so the `induction` tactic needs this one). -/
theorem children_ind (P : Children → Prop) (hnil : P .nil)
    (hcons : ∀ n c rest, P rest → P (.cons n c rest)) : ∀ cs : Children, P cs
  | .nil => hnil
  | .cons n c rest => hcons n c rest (children_ind P hnil hcons rest)
termination_by cs => sizeOf cs

theorem dot_mem_append_data (a b : String) : '.' ∈ (a ++ "." ++ b).data := by
  simp only [String.data_append, List.mem_append]
  left; right
  simp [String]

theorem append_dot_ne (a b s : String) (hs : '.' ∈ s.data → False) :
    a ++ "." ++ b ≠ s := by
  intro h
  exact hs (h ▸ dot_mem_append_data a b)

theorem namedParametersChildren_mem :
    ∀ (cs : Children) (pp : String × Nat), pp ∈ namedParametersChildren cs →
      ∃ n q p, pp = (n ++ "." ++ q, p) := by
  intro cs
  induction cs using children_ind with
  | hnil => intro pp h; simp [namedParametersChildren] at h
  | hcons n c rest ih =>
    intro pp h
    simp only [namedParametersChildren, List.mem_append, List.mem_map] at h
    rcases h with ⟨q, _, rfl⟩ | h
    · exact ⟨n, q.1, q.2, rfl⟩
    · exact ih pp h

/-- In the recursive parameter list, the first parameter literally named
`"weight"` is necessarily a directly-owned one: every descendant
parameter's compound name contains a dot. -/
theorem find_weight_eq_own (m : Module) :
    (named_parameters m).find? (fun pp => pp.1 = "weight") =
      m.info.ownParams.find? (fun pp => pp.1 = "weight") := by
  cases m with
  | mk info cs =>
    have hnone :
        (namedParametersChildren cs).find? (fun pp => pp.1 = "weight") = none := by
      rw [List.find?_eq_none]
      intro x hx
      obtain ⟨n, q, p, rfl⟩ := namedParametersChildren_mem cs x hx
      simp only [decide_eq_true_eq]
      exact append_dot_ne n q "weight" (by decide)
    show ((info.ownParams ++ namedParametersChildren cs).find?
        (fun pp => pp.1 = "weight")) = _
    rw [List.find?_append, hnone, Option.or_none]
    rfl

theorem insertAssoc_of_not_mem {α : Type} (l : List (String × α)) (k : String)
    (v : α) (h : k ∉ l.map Prod.fst) : insertAssoc l k v = l ++ [(k, v)] := by
  unfold insertAssoc
  rw [if_neg]
  intro hc
  rw [List.any_eq_true] at hc
  obtain ⟨x, hx, he⟩ := hc
  exact h (by
    simp only [List.mem_map]
    exact ⟨x, hx, by simpa using he⟩)

theorem get_default_params_fold :
    ∀ (layers : List (String × Module)) (acc : List (String × Nat)),
      (∀ kk ∈ acc.map Prod.fst, kk ∉ layers.map Prod.fst) →
      (layers.map Prod.fst).Nodup →
      layers.foldl
        (fun acc nl =>
          match (named_parameters nl.2).find? (fun pp => pp.1 = "weight") with
          | some pp => insertAssoc acc nl.1 pp.2
          | none => acc)
        acc =
      acc ++ layers.filterMap (fun nl => (ownWeight nl.2).map (fun p => (nl.1, p))) := by
  intro layers
  induction layers with
  | nil => intro acc _ _; simp
  | cons nl rest ih =>
    intro acc hdisj hnd
    have hnd2 : (rest.map Prod.fst).Nodup := by
      simpa using hnd.of_cons
    have hhead : nl.1 ∉ rest.map Prod.fst := by
      have := hnd
      rw [List.map_cons, List.nodup_cons] at this
      exact this.1
    rw [List.foldl_cons]
    cases hw : (named_parameters nl.2).find? (fun pp => pp.1 = "weight") with
    | none =>
      have hown : ownWeight nl.2 = none := by
        unfold ownWeight
        rw [← find_weight_eq_own, hw]
        rfl
      simp only [hw]
      rw [ih acc
        (fun kk hk => by
          have := hdisj kk hk
          simp only [List.map_cons, List.mem_cons] at this
          intro hmem
          exact this (Or.inr hmem)) hnd2]
      rw [List.filterMap_cons]
      simp [hown]
    | some pp =>
      have hown : ownWeight nl.2 = some pp.2 := by
        unfold ownWeight
        rw [← find_weight_eq_own, hw]
        rfl
      have hknotin : nl.1 ∉ acc.map Prod.fst := by
        intro hmem
        have := hdisj nl.1 hmem
        simp at this
      simp only [hw]
      rw [insertAssoc_of_not_mem acc nl.1 pp.2 hknotin]
      rw [ih (acc ++ [(nl.1, pp.2)])
        (fun kk hk => by
          simp only [List.map_append, List.mem_append, List.map_cons,
            List.mem_singleton, List.map_nil] at hk
          rcases hk with hk | hk
          · have := hdisj kk hk
            simp only [List.map_cons, List.mem_cons] at this
            intro hmem
            exact this (Or.inr hmem)
          · subst hk
            exact hhead) hnd2]
      rw [List.filterMap_cons]
      simp [hown]

/-- C7: on a name-to-layer mapping (distinct names), `get_default_params`
returns exactly, for each layer directly owning a parameter literally
named `"weight"`, that parameter under the layer's name; layers without a
directly-owned `"weight"` parameter are absent from the result and raise
no error. -/
theorem get_default_params_spec (layers : List (String × Module))
    (h : (layers.map Prod.fst).Nodup) :
    get_default_params layers =
      layers.filterMap (fun nl => (ownWeight nl.2).map (fun p => (nl.1, p))) := by
  unfold get_default_params
  rw [get_default_params_fold layers [] (by simp) h]
  simp

theorem get_default_params_spec_witness :
    (([("a", leafMod "A" [("weight", 7), ("bias", 8)]),
       ("b", leafMod "B" [("bias", 9)])].map Prod.fst).Nodup) ∧
    get_default_params
        [("a", leafMod "A" [("weight", 7), ("bias", 8)]),
         ("b", leafMod "B" [("bias", 9)])] = [("a", 7)] :=
  ⟨by decide, by
    rw [get_default_params_spec
      [("a", leafMod "A" [("weight", 7), ("bias", 8)]),
       ("b", leafMod "B" [("bias", 9)])] (by decide)]
    rfl⟩

theorem lcsStep_eq (ref : String) (acc : Option ResolvedEntry × Nat)
    (e : ResolvedEntry) :
    lcsStep ref acc e =
      if lcsLen e.key ref > acc.2 then (some e, lcsLen e.key ref) else acc := rfl

theorem lcsFold_isSome (ref : String) :
    ∀ (l : List ResolvedEntry) (b : ResolvedEntry) (k : Nat),
      ((l.foldl (lcsStep ref) (some b, k)).1).isSome = true := by
  intro l
  induction l with
  | nil => intro b k; rfl
  | cons e rest ih =>
    intro b k
    rw [List.foldl_cons, lcsStep_eq]
    by_cases h : lcsLen e.key ref > (some b, k).2
    · rw [if_pos h]; exact ih e _
    · rw [if_neg h]; exact ih b k

theorem lcsFold_none_le (ref : String) :
    ∀ (l : List ResolvedEntry) (k : Nat),
      (l.foldl (lcsStep ref) (none, k)).1 = none →
      ∀ e ∈ l, lcsLen e.key ref ≤ k := by
  intro l
  induction l with
  | nil => intro k _ e he; simp at he
  | cons e rest ih =>
    intro k hfold x hx
    rw [List.foldl_cons, lcsStep_eq] at hfold
    by_cases h : lcsLen e.key ref > ((none, k) : Option ResolvedEntry × Nat).2
    · rw [if_pos h] at hfold
      have hsome := lcsFold_isSome ref rest e (lcsLen e.key ref)
      rw [hfold] at hsome
      simp at hsome
    · rw [if_neg h] at hfold
      simp only [gt_iff_lt, not_lt] at h
      rcases List.mem_cons.mp hx with heq | hx2
      · subst heq; exact h
      · exact ih k hfold x hx2

theorem lcsFold_const (ref : String) :
    ∀ (l : List ResolvedEntry) (b : Option ResolvedEntry) (k : Nat),
      (∀ e ∈ l, lcsLen e.key ref ≤ k) →
      l.foldl (lcsStep ref) (b, k) = (b, k) := by
  intro l
  induction l with
  | nil => intro b k _; rfl
  | cons e rest ih =>
    intro b k hall
    rw [List.foldl_cons, lcsStep_eq]
    have he := hall e (List.mem_cons_self e rest)
    rw [if_neg (by simp; omega)]
    exact ih b k (fun x hx => hall x (List.mem_cons_of_mem e hx))

theorem lcsFold_some_decomp (ref : String) :
    ∀ (l : List ResolvedEntry) (b : Option ResolvedEntry) (k0 : Nat)
      (nm : ResolvedEntry) (k : Nat),
      l.foldl (lcsStep ref) (b, k0) = (some nm, k) →
      (b = some nm ∧ k = k0 ∧ ∀ e ∈ l, lcsLen e.key ref ≤ k0) ∨
      (∃ l₁ l₂, l = l₁ ++ nm :: l₂ ∧ lcsLen nm.key ref = k ∧ k0 < k ∧
        (∀ e ∈ l₁, lcsLen e.key ref < k) ∧ (∀ e ∈ l₂, lcsLen e.key ref ≤ k)) := by
  intro l
  induction l with
  | nil =>
    intro b k0 nm k hfold
    simp only [List.foldl_nil, Prod.mk.injEq] at hfold
    exact Or.inl ⟨hfold.1, hfold.2.symm, by simp⟩
  | cons e rest ih =>
    intro b k0 nm k hfold
    rw [List.foldl_cons, lcsStep_eq] at hfold
    by_cases h : lcsLen e.key ref > (b, k0).2
    · rw [if_pos h] at hfold
      simp only [gt_iff_lt] at h
      rcases ih (some e) (lcsLen e.key ref) nm k hfold with ⟨he, hk, hall⟩ |
        ⟨l₁, l₂, heq, hlen, hlt, h1, h2⟩
      · have he2 : e = nm := by simpa using he
        subst he2
        refine Or.inr ⟨[], rest, by simp, hk.symm, by omega, by simp, ?_⟩
        intro x hx
        have := hall x hx
        omega
      · refine Or.inr ⟨e :: l₁, l₂, by rw [heq, List.cons_append], hlen, by omega, ?_, h2⟩
        intro x hx
        rcases List.mem_cons.mp hx with heq2 | hx2
        · subst heq2; omega
        · exact h1 x hx2
    · rw [if_neg h] at hfold
      simp only [gt_iff_lt, not_lt] at h
      rcases ih b k0 nm k hfold with ⟨he, hk, hall⟩ |
        ⟨l₁, l₂, heq, hlen, hlt, h1, h2⟩
      · refine Or.inl ⟨he, hk, ?_⟩
        intro x hx
        rcases List.mem_cons.mp hx with heq2 | hx2
        · subst heq2; exact h
        · exact hall x hx2
      · refine Or.inr ⟨e :: l₁, l₂, by rw [heq, List.cons_append], hlen, hlt, ?_, h2⟩
        intro x hx
        rcases List.mem_cons.mp hx with heq2 | hx2
        · subst heq2; omega
        · exact h1 x hx2

/-- C5: when the target's candidate set resolves successfully,
`get_matching_layer` returns `None` iff no candidate has a
positive-length longest contiguous common substring with the reference
name (in particular when the candidate set is empty); and a returned
match is a candidate with positive common-substring length that is
strictly greater than every earlier candidate's and at least every later
candidate's (ties keep the first seen, by the strict comparison against
the running best). -/
theorem get_matching_layer_spec (rm : String → String → Bool) (env : Env)
    (target ref : String) (m : Module) (cands : List ResolvedEntry)
    (h : get_layers rm env (.str target) m false = .ok cands) :
    (get_matching_layer rm env target ref m = .ok none ↔
       ∀ e ∈ cands, lcsLen e.key ref = 0) ∧
    (∀ nm : ResolvedEntry,
       get_matching_layer rm env target ref m = .ok (some nm) →
       ∃ l₁ l₂, cands = l₁ ++ nm :: l₂ ∧ 0 < lcsLen nm.key ref ∧
         (∀ e ∈ l₁, lcsLen e.key ref < lcsLen nm.key ref) ∧
         (∀ e ∈ l₂, lcsLen e.key ref ≤ lcsLen nm.key ref)) := by
  have hg : get_matching_layer rm env target ref m =
      .ok (cands.foldl (lcsStep ref) (none, 0)).1 := by
    unfold get_matching_layer
    rw [h]
  constructor
  · constructor
    · intro hok
      rw [hg] at hok
      have h1 : (cands.foldl (lcsStep ref) (none, 0)).1 = none := by
        simpa using hok
      intro e he
      have := lcsFold_none_le ref cands 0 h1 e he
      omega
    · intro hall
      rw [hg, lcsFold_const ref cands none 0 (fun e he => by
        have := hall e he
        omega)]
  · intro nm hok
    rw [hg] at hok
    have h1 : (cands.foldl (lcsStep ref) (none, 0)).1 = some nm := by
      simpa using hok
    rcases hq : cands.foldl (lcsStep ref) (none, 0) with ⟨a, b⟩
    rw [hq] at h1
    simp only at h1
    subst h1
    rcases lcsFold_some_decomp ref cands none 0 nm b hq with ⟨he, _, _⟩ |
      ⟨l₁, l₂, heq, hlen, hpos, hl1, hl2⟩
    · exact absurd he (by simp)
    · refine ⟨l₁, l₂, heq, by omega, ?_, ?_⟩
      · intro e he2
        have := hl1 e he2
        omega
      · intro e he2
        have := hl2 e he2
        omega

theorem get_matching_layer_spec_witness :
    get_layers (fun p n => p == "X" && (n == "l3.q" || n == "l7.v"))
        ⟨true, true, true⟩ (.str "re:X")
        (nodeMod "Root"
          [("l3", nodeMod "B" [("q", leafMod "L" []), ("k", leafMod "L" [])]),
           ("l7", nodeMod "B" [("v", leafMod "L" [])])]) false =
      .ok [⟨"l3.q", ["l3", "q"], .layer (leafMod "L" [])⟩,
           ⟨"l7.v", ["l7", "v"], .layer (leafMod "L" [])⟩] ∧
    ∃ l₁ l₂,
      [(⟨"l3.q", ["l3", "q"], .layer (leafMod "L" [])⟩ : ResolvedEntry),
       ⟨"l7.v", ["l7", "v"], .layer (leafMod "L" [])⟩] =
        l₁ ++ (⟨"l3.q", ["l3", "q"], .layer (leafMod "L" [])⟩ : ResolvedEntry) :: l₂ ∧
      0 < lcsLen "l3.q" "l3.k" ∧
      (∀ e ∈ l₁, lcsLen e.key "l3.k" < lcsLen "l3.q" "l3.k") ∧
      (∀ e ∈ l₂, lcsLen e.key "l3.k" ≤ lcsLen "l3.q" "l3.k") :=
  ⟨by rfl,
    (get_matching_layer_spec (fun p n => p == "X" && (n == "l3.q" || n == "l7.v"))
      ⟨true, true, true⟩ "re:X" "l3.k"
      (nodeMod "Root"
        [("l3", nodeMod "B" [("q", leafMod "L" []), ("k", leafMod "L" [])]),
         ("l7", nodeMod "B" [("v", leafMod "L" [])])])
      [⟨"l3.q", ["l3", "q"], .layer (leafMod "L" [])⟩,
       ⟨"l7.v", ["l7", "v"], .layer (leafMod "L" [])⟩] (by rfl)).2
      ⟨"l3.q", ["l3", "q"], .layer (leafMod "L" [])⟩ (by rfl)⟩

theorem foldl_found_length {α : Type} (f : ResolveState → α → ResolveState)
    (hf : ∀ (st : ResolveState) (x : α), (f st x).found.length = st.found.length) :
    ∀ (l : List α) (st : ResolveState),
      (l.foldl f st).found.length = st.found.length := by
  intro l
  induction l with
  | nil => intro st; rfl
  | cons x rest ih =>
    intro st
    rw [List.foldl_cons, ih (f st x), hf st x]

theorem visitModule_found_length (rm : String → String → Bool)
    (ts : List String) (p : Bool) (path : List String) (name : String)
    (layer : Module) (st : ResolveState) :
    (visitModule rm ts p path name layer st).found.length = st.found.length := by
  simp only [visitModule]
  split
  · simp [setFound]
  · split
    · simp [setFound]
    · rfl

theorem visitParams_found_length (rm : String → String → Bool)
    (ts : List String) (p : Bool) (path : List String) (name : String)
    (layer : Module) (st : ResolveState) :
    (visitParams rm ts p path name layer st).found.length = st.found.length := by
  unfold visitParams
  apply foldl_found_length
  intro st pp
  simp only
  split
  · rfl
  · split
    · simp [setFound]
    · rfl

theorem visitNode_found_length (rm : String → String → Bool)
    (ts : List String) (p : Bool) (st : ResolveState)
    (pm : List String × Module) :
    (visitNode rm ts p st pm).found.length = st.found.length := by
  unfold visitNode
  rw [visitParams_found_length, visitModule_found_length]

theorem missed_eq :
    ∀ (fs : List Bool) (tl : List String), fs.length = tl.length →
      (fs.zip tl).filterMap (fun ft => if ft.1 then none else some ft.2) =
      ((List.range tl.length).filter (fun i => fs.getD i true = false)).map
        (fun i => tl.getD i "") := by
  intro fs
  induction fs with
  | nil =>
    intro tl h
    have h0 : tl = [] := by
      cases tl with
      | nil => rfl
      | cons a as => simp at h
    subst h0
    rfl
  | cons b fs ih =>
    intro tl h
    cases tl with
    | nil => simp at h
    | cons t tl =>
      have hlen : fs.length = tl.length := by simpa using h
      have hrec := ih tl hlen
      cases b with
      | true =>
        have hg : ((fun i => (t :: tl).getD i "") ∘ Nat.succ) =
            (fun i => tl.getD i "") := by
          funext i
          simp [Function.comp, List.getD_cons_succ]
        have hp : ((fun i => decide (((true : Bool) :: fs).getD i true = false)) ∘
              Nat.succ) =
            (fun i => decide (fs.getD i true = false)) := by
          funext i
          simp [Function.comp, List.getD_cons_succ]
        rw [List.zip_cons_cons, List.filterMap_cons_none (by rfl),
          List.length_cons, List.range_succ_eq_map, List.filter_cons,
          if_neg (by simp), List.filter_map, List.map_map, hp, hg]
        exact hrec
      | false =>
        have hg : ((fun i => (t :: tl).getD i "") ∘ Nat.succ) =
            (fun i => tl.getD i "") := by
          funext i
          simp [Function.comp, List.getD_cons_succ]
        have hp : ((fun i => decide (((false : Bool) :: fs).getD i true = false)) ∘
              Nat.succ) =
            (fun i => decide (fs.getD i true = false)) := by
          funext i
          simp [Function.comp, List.getD_cons_succ]
        rw [List.zip_cons_cons, List.filterMap_cons_some (by rfl),
          List.length_cons, List.range_succ_eq_map, List.filter_cons,
          if_pos (by simp), List.map_cons, List.filter_map, List.map_map, hp, hg]
        rw [hrec]
        rfl

/-- C1: for a non-sentinel target specification, if after the full walk
some target index was never marked found, `match_layers_params` fails with
the "target not found" error whose list contains exactly the
specifications at the unfound indices (every unfound index contributes
its specification, no found index does), and no result mapping is
returned. -/
theorem match_layers_params_missing (rm : String → String → Bool) (env : Env)
    (ts : TargetSpec) (m : Module) (p : Bool)
    (hs : ∀ s, ts = TargetSpec.str s →
      s ≠ ALL_TARGET ∧ s ≠ ALL_PRUNABLE_TARGET ∧ s ≠ ALL_QUANTIZABLE_TARGET)
    (hmiss : false ∈ ((namedModulesSeg m).foldl (visitNode rm (targetsList ts) p)
      ⟨List.replicate (targetsList ts).length false, []⟩).found) :
    match_layers_params rm env ts m p =
      .error (.notFound
        (((List.range (targetsList ts).length).filter
            (fun i => ((namedModulesSeg m).foldl (visitNode rm (targetsList ts) p)
              ⟨List.replicate (targetsList ts).length false, []⟩).found.getD i true
                = false)).map
          (fun i => (targetsList ts).getD i ""))) := by
  have hsent : match_layers_params rm env ts m p = resolveTargets rm (targetsList ts) m p := by
    unfold match_layers_params
    cases ts with
    | str s =>
      obtain ⟨h1, h2, h3⟩ := hs s rfl
      rw [if_neg (by simp [h1]), if_neg (by simp [h2]), if_neg (by simp [h3])]
    | list l =>
      rw [if_neg (by simp), if_neg (by simp), if_neg (by simp)]
  rw [hsent]
  simp only [resolveTargets]
  have hlen : ((namedModulesSeg m).foldl (visitNode rm (targetsList ts) p)
      ⟨List.replicate (targetsList ts).length false, []⟩).found.length =
      (targetsList ts).length := by
    rw [foldl_found_length (visitNode rm (targetsList ts) p)
      (visitNode_found_length rm (targetsList ts) p)]
    simp
  rw [missed_eq _ _ hlen]
  have hpos : (((List.range (targetsList ts).length).filter
      (fun i => ((namedModulesSeg m).foldl (visitNode rm (targetsList ts) p)
        ⟨List.replicate (targetsList ts).length false, []⟩).found.getD i true
          = false)).map
    (fun i => (targetsList ts).getD i "")).length > 0 := by
    obtain ⟨i, hi, hgeti⟩ := List.mem_iff_getElem.mp hmiss
    have hilt : i < (targetsList ts).length := by omega
    have hgd : ((namedModulesSeg m).foldl (visitNode rm (targetsList ts) p)
        ⟨List.replicate (targetsList ts).length false, []⟩).found.getD i true = false := by
      rw [List.getD_eq_getElem _ _ hi, hgeti]
    have hmem : i ∈ (List.range (targetsList ts).length).filter
        (fun j => ((namedModulesSeg m).foldl (visitNode rm (targetsList ts) p)
          ⟨List.replicate (targetsList ts).length false, []⟩).found.getD j true = false) :=
      List.mem_filter.mpr ⟨List.mem_range.mpr hilt, by simpa using hgd⟩
    have hmm : (targetsList ts).getD i "" ∈ _ :=
      List.mem_map_of_mem (fun j => (targetsList ts).getD j "") hmem
    have hne := List.ne_nil_of_mem hmm
    have := List.length_pos.mpr hne
    omega
  rw [if_pos hpos]

theorem match_layers_params_missing_witness :
    false ∈ ((namedModulesSeg (nodeMod "Root" [("a", leafMod "A" [])])).foldl
      (visitNode (fun _ _ => false) ["a", "zz"] false)
      ⟨List.replicate 2 false, []⟩).found ∧
    match_layers_params (fun _ _ => false) ⟨true, true, true⟩ (.list ["a", "zz"])
        (nodeMod "Root" [("a", leafMod "A" [])]) false =
      .error (.notFound ["zz"]) :=
  ⟨by decide, by
    rw [match_layers_params_missing (fun _ _ => false) ⟨true, true, true⟩
      (.list ["a", "zz"]) (nodeMod "Root" [("a", leafMod "A" [])]) false
      (fun s h => absurd h (by simp)) (by decide)]
    rfl⟩

theorem foldl_id {α β : Type} (f : β → α → β) :
    ∀ (l : List α) (st : β), (∀ x ∈ l, ∀ s : β, f s x = s) → l.foldl f st = st := by
  intro l
  induction l with
  | nil => intro st _; rfl
  | cons x rest ih =>
    intro st h
    rw [List.foldl_cons, h x (List.mem_cons_self x rest) st]
    exact ih st (fun y hy s => h y (List.mem_cons_of_mem x hy) s)

theorem mt_single_lit (rm : String → String → Bool) (n t : String)
    (hre : ¬(t.take 3 = "re:")) (hne : n ≠ t) :
    match_targets rm n (.list [t]) = (false, -1) := by
  simp only [match_targets, targetsList, matchTargetsGo]
  rw [if_neg hre, if_neg hne]

theorem mc_single_lit (layer : Module) (t : String)
    (hne : layer.info.className ≠ t) :
    match_class layer (.list [t]) = (false, -1) := by
  simp only [match_class, targetsList, matchClassGo]
  rw [if_neg hne]

theorem visitParams_all_target (rm : String → String → Bool) (p : Bool)
    (path : List String) (name : String) (layer : Module) (st : ResolveState) :
    visitParams rm [ALL_TARGET] p path name layer st = st := by
  unfold visitParams
  apply foldl_id
  intro pp _ s
  simp only
  by_cases hd : containsDot pp.1
  · rw [if_pos hd]
  · rw [if_neg hd]
    have hm : match_targets rm (name ++ "." ++ pp.1) (.list [ALL_TARGET]) =
        (false, -1) :=
      mt_single_lit rm _ _ (by decide)
        (append_dot_ne name pp.1 ALL_TARGET (by decide))
    rw [hm]
    rfl

theorem visitNode_all_target (rm : String → String → Bool) (p : Bool)
    (st : ResolveState) (pm : List String × Module)
    (hname : fix_fsdp_module_name (String.intercalate "." pm.1) ≠ ALL_TARGET)
    (hclass : pm.2.info.className ≠ ALL_TARGET) :
    visitNode rm [ALL_TARGET] p st pm = st := by
  simp only [visitNode]
  have hm := mt_single_lit rm (fix_fsdp_module_name (String.intercalate "." pm.1))
    ALL_TARGET (by decide) hname
  have hc := mc_single_lit pm.2 ALL_TARGET hclass
  have hvm : visitModule rm [ALL_TARGET] p pm.1
      (fix_fsdp_module_name (String.intercalate "." pm.1)) pm.2 st = st := by
    simp only [visitModule, hm, hc]
    rfl
  rw [hvm, visitParams_all_target]

/-- C9: the reserved-sentinel short-circuit applies only to the bare
sentinel string: any list specification — in particular the one-element
list `["__ALL__"]` — goes through the normal literal/regex/class
resolution, and on a tree where no node's normalized name or class name
is literally `"__ALL__"` it raises the unresolved-target error listing
`"__ALL__"` (the compound parameter names cannot match it, since they all
contain a dot). -/
theorem sentinel_list_spec (rm : String → String → Bool) (env : Env) :
    (∀ (l : List String) (m : Module) (p : Bool),
       match_layers_params rm env (.list l) m p = resolveTargets rm l m p) ∧
    (∀ (m : Module) (p : Bool),
       (∀ e ∈ namedModulesSeg m,
          fix_fsdp_module_name (String.intercalate "." e.1) ≠ ALL_TARGET ∧
          e.2.info.className ≠ ALL_TARGET) →
       match_layers_params rm env (.list [ALL_TARGET]) m p =
         .error (.notFound [ALL_TARGET])) := by
  have hpart1 : ∀ (l : List String) (m : Module) (p : Bool),
      match_layers_params rm env (.list l) m p = resolveTargets rm l m p := by
    intro l m p
    unfold match_layers_params
    rw [if_neg (by simp), if_neg (by simp), if_neg (by simp)]
    rfl
  refine ⟨hpart1, ?_⟩
  intro m p h
  rw [hpart1]
  simp only [resolveTargets]
  rw [foldl_id (visitNode rm [ALL_TARGET] p) (namedModulesSeg m)
    ⟨List.replicate ([ALL_TARGET] : List String).length false, []⟩
    (fun x hx s => visitNode_all_target rm p s x (h x hx).1 (h x hx).2)]
  rfl

theorem sentinel_list_spec_witness :
    (∀ e ∈ namedModulesSeg (nodeMod "M" [("x", leafMod "N" [("w", 1)])]),
       fix_fsdp_module_name (String.intercalate "." e.1) ≠ ALL_TARGET ∧
       e.2.info.className ≠ ALL_TARGET) ∧
    match_layers_params (fun _ _ => false) ⟨true, true, true⟩
        (.list [ALL_TARGET]) (nodeMod "M" [("x", leafMod "N" [("w", 1)])]) false =
      .error (.notFound [ALL_TARGET]) :=
  ⟨by decide,
   (sentinel_list_spec (fun _ _ => false) ⟨true, true, true⟩).2
     (nodeMod "M" [("x", leafMod "N" [("w", 1)])]) false (by decide)⟩

theorem insertAssoc_forall {α : Type} (P : String × α → Prop)
    (l : List (String × α)) (k : String) (v : α)
    (hl : ∀ e ∈ l, P e) (hv : P (k, v)) : ∀ e ∈ insertAssoc l k v, P e := by
  intro e he
  unfold insertAssoc at he
  split at he
  · rw [List.mem_map] at he
    obtain ⟨x, hx, rfl⟩ := he
    by_cases hk : x.1 = k
    · rw [if_pos hk]; exact hv
    · rw [if_neg hk]; exact hl x hx
  · rw [List.mem_append] at he
    rcases he with he | he
    · exact hl e he
    · simp only [List.mem_singleton] at he
      subst he; exact hv

theorem glp_fold (layers : List ResolvedEntry) :
    ∀ (params : List ResolvedEntry)
      (acc : Except PyErr (List (String × ModelParameterizedLayer)))
      (lst : List (String × ModelParameterizedLayer)),
      (∀ l0, acc = .ok l0 → ∀ e ∈ l0, e.2.param_name = e.1 ∧ e.2.layer_name = e.1) →
      params.foldl
        (fun acc pe =>
          match acc with
          | .error e => .error e
          | .ok lst =>
            match layers.find? (fun le => le.key = pe.key) with
            | none => .error .keyError
            | some le => .ok (insertAssoc lst pe.key ⟨pe.key, le.value, pe.key, pe.value⟩))
        acc = .ok lst →
      ∀ e ∈ lst, e.2.param_name = e.1 ∧ e.2.layer_name = e.1 := by
  intro params
  induction params with
  | nil => intro acc lst hacc hfold; exact hacc lst hfold
  | cons pe rest ih =>
    intro acc lst hacc hfold
    rw [List.foldl_cons] at hfold
    refine ih _ lst ?_ hfold
    intro l0 hl0
    cases acc with
    | error e => simp at hl0
    | ok lcur =>
      cases hfind : layers.find? (fun le => le.key = pe.key) with
      | none =>
        simp only [hfind] at hl0
        simp at hl0
      | some le =>
        simp only [hfind, Except.ok.injEq] at hl0
        subst hl0
        exact insertAssoc_forall _ lcur pe.key
          ⟨pe.key, le.value, pe.key, pe.value⟩
          (hacc lcur rfl) ⟨rfl, rfl⟩

/-- C10: every entry of a successful `get_layers_params` result has its
`param_name` field equal to the layer's dotted-path name — the same value
as `layer_name` and the dict key — not the parameter's own local name. -/
theorem get_layers_params_names (rm : String → String → Bool) (env : Env)
    (ts : TargetSpec) (m : Module)
    (lst : List (String × ModelParameterizedLayer))
    (h : get_layers_params rm env ts m = .ok lst) :
    ∀ e ∈ lst, e.2.param_name = e.1 ∧ e.2.layer_name = e.1 := by
  unfold get_layers_params at h
  cases hp : get_params rm env ts m with
  | error e => rw [hp] at h; simp at h
  | ok params =>
    rw [hp] at h
    cases hl : get_layers rm env ts m false with
    | error e => rw [hl] at h; simp at h
    | ok layers =>
      rw [hl] at h
      exact glp_fold layers params (.ok []) lst
        (fun l0 h0 => by
          simp only [Except.ok.injEq] at h0
          subst h0
          intro e he
          simp at he) h

theorem get_layers_params_names_witness :
    get_layers_params (fun _ _ => false) ⟨true, true, true⟩ (.list ["a.weight"])
        (nodeMod "Root" [("a", leafMod "A" [("weight", 5)])]) =
      .ok [("a", ⟨"a", .layer (leafMod "A" [("weight", 5)]), "a", .par 5⟩)] ∧
    ∀ e ∈ [(("a", ⟨"a", .layer (leafMod "A" [("weight", 5)]), "a", .par 5⟩) :
        String × ModelParameterizedLayer)],
      e.2.param_name = e.1 ∧ e.2.layer_name = e.1 :=
  ⟨by rfl,
   get_layers_params_names (fun _ _ => false) ⟨true, true, true⟩
     (.list ["a.weight"]) (nodeMod "Root" [("a", leafMod "A" [("weight", 5)])])
     [("a", ⟨"a", .layer (leafMod "A" [("weight", 5)]), "a", .par 5⟩)] (by rfl)⟩

theorem findChild_setChildren (s : String) (c : Module) :
    ∀ cs : Children, findChild s (setChildren cs s c) = .ok c := by
  apply children_ind
  · simp [setChildren, findChild]
  · intro n c0 rest ih
    simp only [setChildren]
    by_cases hn : n = s
    · rw [if_pos hn]
      simp only [findChild]
      rw [if_pos hn]
    · rw [if_neg hn]
      simp only [findChild]
      rw [if_neg hn]
      exact ih

/-- Python `getattr` after `setattr` under the same name yields the new
child. -/
theorem getattr_setattr (q : Module) (s : String) (c : Module) :
    getattrChild (setattrChild q s c) s = .ok c := by
  cases q with
  | mk info cs => exact findChild_setChildren s c cs

theorem setChildren_setChildren (s : String) (r old : Module) :
    ∀ cs : Children, findChild s cs = .ok old →
      setChildren (setChildren cs s r) s old = cs := by
  apply children_ind
  · intro h
    simp [findChild] at h
  · intro n c0 rest ih h
    simp only [findChild] at h
    by_cases hn : n = s
    · rw [if_pos hn] at h
      have hc0 : c0 = old := by simpa using h
      simp only [setChildren]
      rw [if_pos hn]
      simp only [setChildren]
      rw [if_pos hn, hc0]
    · rw [if_neg hn] at h
      simp only [setChildren]
      rw [if_neg hn]
      simp only [setChildren]
      rw [if_neg hn, ih h]

/-- Replacing a child and then replacing it back with the displaced one
restores the original node. -/
theorem setattr_setattr (q : Module) (s : String) (r old : Module)
    (h : getattrChild q s = .ok old) :
    setattrChild (setattrChild q s r) s old = q := by
  cases q with
  | mk info cs =>
    unfold getattrChild at h
    simp only [setattrChild, Module.children, Module.info]
    rw [setChildren_setChildren s r old cs h]

theorem findChild_updateChildren (s : String) (g : Module → Module) :
    ∀ cs : Children,
      findChild s (updateChildren cs s g) = Except.map g (findChild s cs) := by
  apply children_ind
  · rfl
  · intro n c0 rest ih
    simp only [updateChildren]
    by_cases hn : n = s
    · rw [if_pos hn]
      simp only [findChild]
      rw [if_pos hn, if_pos hn]
      rfl
    · rw [if_neg hn]
      simp only [findChild]
      rw [if_neg hn, if_neg hn]
      exact ih

theorem subtreeAt_updateAt :
    ∀ (p : List String) (m : Module) (x : Module) (f : Module → Module),
      subtreeAt m p = some x → subtreeAt (updateAt m p f) p = some (f x) := by
  intro p
  induction p with
  | nil =>
    intro m x f h
    have hm : m = x := by simpa [subtreeAt] using h
    subst hm
    rfl
  | cons seg rest ih =>
    intro m x f h
    cases m with
    | mk info cs =>
      simp only [subtreeAt] at h
      cases hfc : getattrChild (Module.mk info cs) seg with
      | error e => rw [hfc] at h; simp at h
      | ok c =>
        rw [hfc] at h
        simp only [updateAt, Module.info, Module.children, subtreeAt]
        have hup : getattrChild
            (Module.mk info (updateChildren cs seg (fun q => updateAt q rest f)))
            seg = .ok (updateAt c rest f) := by
          unfold getattrChild
          simp only [Module.children]
          rw [findChild_updateChildren]
          unfold getattrChild at hfc
          simp only [Module.children] at hfc
          rw [hfc]
          rfl
        rw [hup]
        exact ih c x f h

theorem updateChildren_updateChildren (s : String) (f2 g2 : Module → Module) :
    ∀ cs : Children,
      updateChildren (updateChildren cs s f2) s g2 =
        updateChildren cs s (fun c => g2 (f2 c)) := by
  apply children_ind
  · rfl
  · intro n c0 rest ih
    by_cases hn : n = s
    · simp only [updateChildren, if_pos hn]
    · simp only [updateChildren, if_neg hn]
      rw [ih]

theorem updateAt_updateAt :
    ∀ (p : List String) (m : Module) (f g : Module → Module),
      updateAt (updateAt m p f) p g = updateAt m p (fun y => g (f y)) := by
  intro p
  induction p with
  | nil => intro m f g; rfl
  | cons seg rest ih =>
    intro m f g
    simp only [updateAt, Module.info, Module.children]
    rw [updateChildren_updateChildren]
    have hfun : (fun c => updateAt (updateAt c rest f) rest g) =
        (fun c => updateAt c rest (fun y => g (f y))) := by
      funext c
      exact ih c f g
    rw [hfun]

theorem updateChildren_id (s : String) (g : Module → Module) :
    ∀ (cs : Children) (c : Module), findChild s cs = .ok c → g c = c →
      updateChildren cs s g = cs := by
  apply children_ind
  · intro c h _
    simp [findChild] at h
  · intro n c0 rest ih c h hg
    simp only [findChild] at h
    by_cases hn : n = s
    · rw [if_pos hn] at h
      have hc0 : c0 = c := by simpa using h
      simp only [updateChildren]
      rw [if_pos hn, hc0, hg]
    · rw [if_neg hn] at h
      simp only [updateChildren]
      rw [if_neg hn, ih c h hg]

theorem updateAt_self :
    ∀ (p : List String) (m x : Module) (f : Module → Module),
      subtreeAt m p = some x → f x = x → updateAt m p f = m := by
  intro p
  induction p with
  | nil =>
    intro m x f h hf
    have hm : m = x := by simpa [subtreeAt] using h
    subst hm
    simpa [updateAt] using hf
  | cons seg rest ih =>
    intro m x f h hf
    simp only [subtreeAt] at h
    cases hfc : getattrChild m seg with
    | error e => rw [hfc] at h; simp at h
    | ok c =>
      rw [hfc] at h
      cases m with
      | mk info cs =>
        simp only [updateAt, Module.info, Module.children]
        unfold getattrChild at hfc
        simp only [Module.children] at hfc
        rw [updateChildren_id seg _ cs c hfc (ih c x f h hf)]

/-- C6 (amended): if the parent target of a `set_layer` call resolves —
both on the original tree and on the once-mutated tree — to the same tree
position, holding the node actually located there, and the target's final
segment names a child of that node, then each call returns the node
attached under that segment immediately before the call, and the second
call (with the node displaced by the first) restores the original tree.
The unamended claim fails when the replacement itself matches the parent
target (see the counterexample). -/
theorem set_layer_roundtrip (rm : String → String → Bool) (env : Env)
    (target : String) (r m : Module) (e1 e2 : ResolvedEntry) (pl old : Module)
    (h1 : set_layer_parent rm env target m = .ok e1)
    (h2 : e1.value = .layer pl)
    (h3 : subtreeAt m e1.path = some pl)
    (h4 : getattrChild pl ((splitDot target).getLastD "") = .ok old)
    (h5 : set_layer_parent rm env target
        (updateAt m e1.path
          (fun q => setattrChild q ((splitDot target).getLastD "") r)) = .ok e2)
    (h6 : e2.path = e1.path)
    (h7 : e2.value = .layer (setattrChild pl ((splitDot target).getLastD "") r)) :
    set_layer rm env target r m =
      .ok (old, updateAt m e1.path
        (fun q => setattrChild q ((splitDot target).getLastD "") r)) ∧
    set_layer rm env target old
        (updateAt m e1.path
          (fun q => setattrChild q ((splitDot target).getLastD "") r)) =
      .ok (r, m) := by
  constructor
  · simp only [set_layer, h1, h2, h4]
  · simp only [set_layer, h5, h7, getattr_setattr]
    rw [h6, updateAt_updateAt]
    have hround : (fun y => setattrChild
        (setattrChild y ((splitDot target).getLastD "") r)
        ((splitDot target).getLastD "") old) pl = pl :=
      setattr_setattr pl ((splitDot target).getLastD "") r old h4
    rw [updateAt_self e1.path m pl _ h3 hround]

/-- C6 counterexample: the round trip as universally claimed fails.  The
target `"a.b"` resolves to exactly one layer in the original tree, but
after replacing it with a node whose class name is literally `"a"`, the
second `set_layer` call fails with the cardinality error (the parent
target `"a"` now also class-matches the replacement), so the tree is
never restored. -/
theorem set_layer_roundtrip_cex :
    get_layer (fun _ _ => false) ⟨true, true, true⟩ "a.b"
        (nodeMod "Root" [("a", nodeMod "A" [("b", leafMod "B" [])])]) =
      .ok ⟨"a.b", ["a", "b"], .layer (leafMod "B" [])⟩ ∧
    set_layer (fun _ _ => false) ⟨true, true, true⟩ "a.b" (leafMod "a" [])
        (nodeMod "Root" [("a", nodeMod "A" [("b", leafMod "B" [])])]) =
      .ok (leafMod "B" [],
        nodeMod "Root" [("a", nodeMod "A" [("b", leafMod "a" [])])]) ∧
    set_layer (fun _ _ => false) ⟨true, true, true⟩ "a.b" (leafMod "B" [])
        (nodeMod "Root" [("a", nodeMod "A" [("b", leafMod "a" [])])]) =
      .error (.valueError 2) :=
  ⟨by rfl, by rfl, by rfl⟩

theorem set_layer_roundtrip_witness :
    set_layer (fun _ _ => false) ⟨true, true, true⟩ "a.b" (leafMod "R" [])
        (nodeMod "Root" [("a", nodeMod "A" [("b", leafMod "B" [])])]) =
      .ok (leafMod "B" [],
        nodeMod "Root" [("a", nodeMod "A" [("b", leafMod "R" [])])]) ∧
    set_layer (fun _ _ => false) ⟨true, true, true⟩ "a.b" (leafMod "B" [])
        (nodeMod "Root" [("a", nodeMod "A" [("b", leafMod "R" [])])]) =
      .ok (leafMod "R" [],
        nodeMod "Root" [("a", nodeMod "A" [("b", leafMod "B" [])])]) :=
  set_layer_roundtrip (fun _ _ => false) ⟨true, true, true⟩ "a.b"
    (leafMod "R" [])
    (nodeMod "Root" [("a", nodeMod "A" [("b", leafMod "B" [])])])
    ⟨"a", ["a"], .layer (nodeMod "A" [("b", leafMod "B" [])])⟩
    ⟨"a", ["a"], .layer (nodeMod "A" [("b", leafMod "R" [])])⟩
    (nodeMod "A" [("b", leafMod "B" [])]) (leafMod "B" [])
    (by rfl) (by rfl) (by rfl) (by rfl) (by rfl) (by rfl) (by rfl)

end LC
